import Mathlib

/-!
Verification development for the statement-caching and waiting core of a
PostgreSQL client library.

Part 1 embeds `psycopg/_preparing.py` (the `PrepareManager` class): the
mutable `OrderedDict` cache is modelled as an association list ordered from
least-recently-used (front) to most-recently-used (back), and every method
becomes a pure function returning its result together with the updated
manager state.

Part 2 embeds `psycopg/waiting.py`: each wait strategy consumes a generator
(modelled as an inductive suspension tree) and an oracle listing the
readiness observations the OS/scheduler would deliver at each blocking call.
-/

/-! ### Byte-level constants

Bytes are modelled as `List Nat`.  The constants below spell out the exact
byte strings appearing in `_preparing.py`. -/

-- bytes of "DROP " (note the trailing space), as in cmdstat.startswith(b"DROP ")
def DROP_SP : List Nat := [68, 82, 79, 80, 32]

-- bytes of "ROLLBACK"
def ROLLBACK_TAG : List Nat := [82, 79, 76, 76, 66, 65, 67, 75]

-- bytes of "DEALLOCATE ALL"
def DEALLOCATE_ALL : List Nat := [68, 69, 65, 76, 76, 79, 67, 65, 84, 69, 32, 65, 76, 76]

-- bytes of "DEALLOCATE " (the prefix prepended to an evicted statement name)
def DEALLOCATE_SP : List Nat := [68, 69, 65, 76, 76, 79, 67, 65, 84, 69, 32]

/-! ### Decimal rendering of the statement-name counter

`PrepareManager.get` builds names as `f"_pg3_{self._prepared_idx}".encode()`.
`natDecimal n` is the ASCII byte string of the standard decimal rendering of
`n` (no leading zeros, and `0` renders as "0"), written with explicit fuel so
that it reduces by kernel evaluation. -/

def natDecimalAux : Nat → Nat → List Nat
  | 0, _ => []
  | fuel + 1, n => if n = 0 then [] else natDecimalAux fuel (n / 10) ++ [n % 10 + 48]

def natDecimal (n : Nat) : List Nat :=
  if n = 0 then [48] else natDecimalAux n n

-- bytes of f"_pg3_{idx}": "_pg3_" followed by the decimal rendering of idx
def pg3Name (idx : Nat) : List Nat := [95, 112, 103, 51, 95] ++ natDecimal idx

/-! ### Data model of `_preparing.py` -/

/-- The three values of the `Prepare` IntEnum: `NO`, `YES`, `SHOULD`. -/
inductive Prepare where
  | NO
  | YES
  | SHOULD
deriving DecidableEq, Repr

/-- Execution statuses of a `PGresult` that `_preparing.py` inspects;
all remaining members of the `pq.ExecStatus` enum are collapsed into
`OTHER` since the code only ever compares against these two. -/
inductive ExecStatus where
  | COMMAND_OK
  | TUPLES_OK
  | OTHER
deriving DecidableEq, Repr

/-- The part of a `PGresult` consumed by `_preparing.py`: the execution
status and the command tag (`None` and empty tags are both possible). -/
structure PGresult where
  status : ExecStatus
  command_status : Option (List Nat)
deriving DecidableEq, Repr

/-- A `PostgresQuery` as consumed by `PrepareManager.key`: the raw query
bytes and the tuple of parameter type OIDs. -/
structure PostgresQuery where
  query : List Nat
  types : List Nat
deriving DecidableEq, Repr

/-- `Key = Tuple[bytes, Tuple[int, ...]]`. -/
abbrev Key : Type := List Nat × List Nat

/-- `Value = Union[int, bytes]`: a seen-count or a prepared-statement name. -/
inductive Value where
  | count (n : Nat)
  | name (b : List Nat)
deriving DecidableEq, Repr

/-- The `OrderedDict` lookup `self._prepared.get(key, ...)` on the
association-list model (first match; keys are unique in every reachable
state). -/
def listGet : List (Key × Value) → Key → Option Value
  | [], _ => none
  | (a, v) :: t, k => if a = k then some v else listGet t k

/-- Remove the entry for `k` (first occurrence).  Updating an existing key
and then calling `move_to_end` is modelled as `removeKey` plus an append. -/
def removeKey : List (Key × Value) → Key → List (Key × Value)
  | [], _ => []
  | (a, v) :: t, k => if a = k then t else (a, v) :: removeKey t k

/-- State of a `PrepareManager`: the two configuration attributes, the
recency-ordered cache (least-recently-used first, as popped by
`popitem(last=False)`), and the name counter `_prepared_idx`. -/
structure PrepareManager where
  prepare_threshold : Option Nat
  prepared_max : Nat
  _prepared : List (Key × Value)
  _prepared_idx : Nat
deriving DecidableEq, Repr

/-- A freshly constructed manager (`__init__`): empty cache, counter 0. -/
def mkPM (th : Option Nat) (max : Nat) : PrepareManager :=
  { prepare_threshold := th, prepared_max := max, _prepared := [], _prepared_idx := 0 }

/-- `PrepareManager.key`. -/
def PrepareManager.key (q : PostgresQuery) : Key := (q.query, q.types)

/-- `PrepareManager.get`: decide whether a query should be prepared.
`prepare` is the per-call override (`None` = no opinion, `False` = forced
off, `True` = forced on). -/
def PrepareManager.get (m : PrepareManager) (q : PostgresQuery) (prepare : Option Bool) :
    (Prepare × List Nat) × PrepareManager :=
  if prepare = some false ∨ m.prepare_threshold = none then
    ((Prepare.NO, []), m)
  else
    match listGet m._prepared (PrepareManager.key q) with
    | some (Value.name b) => ((Prepare.YES, b), m)
    | v =>
      let value : Nat := match v with | some (Value.count n) => n | _ => 0
      match m.prepare_threshold with
      | some th =>
        if th ≤ value ∨ prepare = some true then
          ((Prepare.SHOULD, pg3Name m._prepared_idx),
           { m with _prepared_idx := m._prepared_idx + 1 })
        else
          ((Prepare.NO, []), m)
      | none => ((Prepare.NO, []), m)

/-- One iteration of the scan in `should_discard`: a result triggers a
discard iff its status is `COMMAND_OK` and its command tag is truthy and
either starts with "DROP " or equals "ROLLBACK". -/
def discardMatch (r : PGresult) : Bool :=
  (r.status == ExecStatus.COMMAND_OK) &&
    (match r.command_status with
     | none => false
     | some tag => !tag.isEmpty && (DROP_SP.isPrefixOf tag || tag == ROLLBACK_TAG))

/-- `PrepareManager.should_discard`: on rollback or dropped objects, clear
the whole cache and ask the caller to `DEALLOCATE ALL`.  The scan only runs
when the cache is non-empty or this call is a promotion. -/
def PrepareManager.should_discard (m : PrepareManager) (prep : Prepare)
    (results : List PGresult) : Option (List Nat) × PrepareManager :=
  if m._prepared ≠ [] ∨ prep = Prepare.SHOULD then
    if results.any discardMatch then
      (some DEALLOCATE_ALL, { m with _prepared := [] })
    else
      (none, m)
  else
    (none, m)

/-- `PrepareManager.setdefault`: if the query is already tracked, update it
in place (promote or bump the count) and mark it most-recently-used,
returning `none`; otherwise return the key/value pair that would be
inserted, leaving the state unchanged. -/
def PrepareManager.setdefault (m : PrepareManager) (q : PostgresQuery)
    (prep : Prepare) (name : List Nat) :
    Option (Key × Value) × PrepareManager :=
  let key := PrepareManager.key q
  match listGet m._prepared key with
  | some v =>
    let v2 : Value :=
      match v with
      | Value.count n => if prep = Prepare.SHOULD then Value.name name else Value.count (n + 1)
      | Value.name b => Value.name b
    (none, { m with _prepared := removeKey m._prepared key ++ [(key, v2)] })
  | none =>
    (some (key, if prep = Prepare.SHOULD then Value.name name else Value.count 1), m)

/-- `PrepareManager.maintain`: maintain the cache after a query execution,
returning the maintenance command (if any) and the new state. -/
def PrepareManager.maintain (m : PrepareManager) (q : PostgresQuery)
    (results : List PGresult) (prep : Prepare) (name : List Nat) :
    Option (List Nat) × PrepareManager :=
  match m.prepare_threshold with
  | none => (none, m)
  | some _ =>
    match m.should_discard prep results with
    | (some cmd, m1) => (some cmd, m1)
    | (none, m1) =>
      match m1.setdefault q prep name with
      | (none, m2) => (none, m2)
      | (some (key, value), m2) =>
        match results with
        | [result] =>
          if result.status ≠ ExecStatus.COMMAND_OK ∧ result.status ≠ ExecStatus.TUPLES_OK then
            (none, m2)
          else
            let m3 : PrepareManager := { m2 with _prepared := m2._prepared ++ [(key, value)] }
            if m3._prepared.length ≤ m3.prepared_max then
              (none, m3)
            else
              match m3._prepared with
              | [] => (none, m3)
              | old :: rest =>
                (match old.2 with
                 | Value.name b => some (DEALLOCATE_SP ++ b)
                 | Value.count _ => none,
                 { m3 with _prepared := rest })
        | _ => (none, m2)

/-- `PrepareManager.clear`: if any name was ever generated, clear the cache,
reset the counter and return `DEALLOCATE ALL`; otherwise do nothing. -/
def PrepareManager.clear (m : PrepareManager) : Option (List Nat) × PrepareManager :=
  if m._prepared_idx ≠ 0 then
    (some DEALLOCATE_ALL, { m with _prepared := [], _prepared_idx := 0 })
  else
    (none, m)

/-! ### Operation sequences over a `PrepareManager` -/

/-- A public operation on the cache, with its arguments. -/
inductive CacheOp where
  | get (q : PostgresQuery) (prepare : Option Bool)
  | maintain (q : PostgresQuery) (results : List PGresult) (prep : Prepare) (name : List Nat)
  | clear
deriving DecidableEq, Repr

/-- Apply one operation, discarding its output. -/
def stepOp (m : PrepareManager) : CacheOp → PrepareManager
  | CacheOp.get q p => (m.get q p).2
  | CacheOp.maintain q rs prep nm => (m.maintain q rs prep nm).2
  | CacheOp.clear => m.clear.2

/-- Apply a sequence of operations from left to right. -/
def runOps (m : PrepareManager) : List CacheOp → PrepareManager
  | [] => m
  | op :: ops => runOps (stepOp m op) ops

/-! ### Part 2: embedding of `waiting.py`

Readiness requests and results are the bitmasks of the `Wait` and `Ready`
IntEnums (over `selectors.EVENT_READ`/`EVENT_WRITE`).  A generator is
modelled as an inductive suspension tree: `next(gen)` inspects the root,
`gen.send(ready)` applies the stored continuation.  Each blocking primitive
(`sel.select`, `epoll.poll`, `await asyncio.wait`) is driven by an oracle
list holding the observation it would produce at each call; when the oracle
is exhausted the run is still blocked, reported as `pending`. -/

def EVENT_READ : Nat := 1
def EVENT_WRITE : Nat := 2

def Wait.R : Nat := EVENT_READ
def Wait.W : Nat := EVENT_WRITE
def Wait.RW : Nat := EVENT_READ ||| EVENT_WRITE

def Ready.R : Nat := EVENT_READ
def Ready.W : Nat := EVENT_WRITE
def Ready.RW : Nat := EVENT_READ ||| EVENT_WRITE

/-- A `PQGen[RV]`: either already finished, or suspended on a readiness
request `s` with a continuation awaiting the observed readiness. -/
inductive PQGen (RV : Type) where
  | done (rv : RV)
  | yield (s : Nat) (k : Nat → PQGen RV)

/-- A `PQGenConn[RV]`: like `PQGen` but each suspension also carries the
file descriptor to wait on, which may change between steps. -/
inductive PQGenConn (RV : Type) where
  | done (rv : RV)
  | yield (fileno : Nat) (s : Nat) (k : Nat → PQGenConn RV)

/-- Possible outcomes of driving a generator with a finite oracle. -/
inductive WaitOutcome (RV : Type) where
  | ok (rv : RV)
  /-- the `assert s & ready` in `wait_selector` / `wait_epoll` failed -/
  | assertionFailed
  /-- `e.OperationalError("timeout expired")` -/
  | operationalTimeout
  /-- `e.InternalError(f"bad poll status: ...")` -/
  | internalBadStatus
  /-- the oracle is exhausted: the adaptor is still blocked, waiting -/
  | pending
deriving DecidableEq, Repr

/-- Loop body of `wait_selector`.  Each oracle entry is the list of event
masks returned by one `sel.select(timeout=timeout)` call (`[]` = the select
timed out empty and is silently retried).  The `timeout` argument of
`wait_selector` only slices the blocking wait for interrupt checks and never
changes the outcome, so it is not a parameter of the model. -/
def waitSelectorGo {RV : Type} : Nat → (Nat → PQGen RV) → List (List Nat) → WaitOutcome RV
  | _, _, [] => WaitOutcome.pending
  | s, k, [] :: rest => waitSelectorGo s k rest
  | s, k, (ready :: _) :: rest =>
    if s &&& ready = 0 then WaitOutcome.assertionFailed
    else
      match k ready with
      | PQGen.done rv => WaitOutcome.ok rv
      | PQGen.yield s2 k2 => waitSelectorGo s2 k2 rest

/-- `wait_selector(gen, fileno, timeout)`. -/
def wait_selector {RV : Type} (gen : PQGen RV) (_fileno : Nat)
    (oracle : List (List Nat)) : WaitOutcome RV :=
  match gen with
  | PQGen.done rv => WaitOutcome.ok rv
  | PQGen.yield s k => waitSelectorGo s k oracle

def EPOLLIN : Nat := 1
def EPOLLOUT : Nat := 4

/-- Translation of an epoll event mask into a `Ready` value, as in
`wait_epoll`: any bit other than `EPOLLOUT` counts as read-ready, any bit
other than `EPOLLIN` counts as write-ready (`ev & ~EPOLLOUT`, `ev & ~EPOLLIN`;
`x ^^^ (x &&& mask)` clears the bits of `mask` in `x`). -/
def epollReady (ev : Nat) : Nat :=
  (if ev ^^^ (ev &&& EPOLLOUT) ≠ 0 then Ready.R else 0) |||
  (if ev ^^^ (ev &&& EPOLLIN) ≠ 0 then Ready.W else 0)

/-- Loop body of `wait_epoll`.  Each oracle entry is the list of
`(fd, events)` masks returned by one `epoll.poll(timeout)` call
(`[]` = empty poll, silently retried). -/
def waitEpollGo {RV : Type} : Nat → (Nat → PQGen RV) → List (List Nat) → WaitOutcome RV
  | _, _, [] => WaitOutcome.pending
  | s, k, [] :: rest => waitEpollGo s k rest
  | s, k, (ev :: _) :: rest =>
    if s &&& epollReady ev = 0 then WaitOutcome.assertionFailed
    else
      match k (epollReady ev) with
      | PQGen.done rv => WaitOutcome.ok rv
      | PQGen.yield s2 k2 => waitEpollGo s2 k2 rest

/-- `wait_epoll(gen, fileno, timeout)`; like `wait_selector`, the timeout
slice does not affect the outcome of the loop. -/
def wait_epoll {RV : Type} (gen : PQGen RV) (_fileno : Nat)
    (oracle : List (List Nat)) : WaitOutcome RV :=
  match gen with
  | PQGen.done rv => WaitOutcome.ok rv
  | PQGen.yield s k => waitEpollGo s k oracle

/-- The `timeout = timeout or None` normalization performed by `wait_conn`
and `wait_conn_async` (`0` and `None` are both falsy). -/
def normTimeout : Option Nat → Option Nat
  | some 0 => none
  | t => t

/-- Loop body of `wait_conn`.  Each oracle entry is the list of event masks
returned by one `sel.select(timeout=timeout)` call; an empty select raises
`OperationalError("timeout expired")`.  Note: unlike `wait_selector`, the
observed readiness is sent to the generator without any assertion. -/
def waitConnGo {RV : Type} :
    Option Nat → Nat → Nat → (Nat → PQGenConn RV) → List (List Nat) → WaitOutcome RV
  | _, _, _, _, [] => WaitOutcome.pending
  | _, _, _, _, [] :: _ => WaitOutcome.operationalTimeout
  | timeout, _, _, k, (ready :: _) :: rest =>
    match k ready with
    | PQGenConn.done rv => WaitOutcome.ok rv
    | PQGenConn.yield f2 s2 k2 => waitConnGo timeout f2 s2 k2 rest

/-- `wait_conn(gen, timeout)`. -/
def wait_conn {RV : Type} (gen : PQGenConn RV) (timeout : Option Nat)
    (oracle : List (List Nat)) : WaitOutcome RV :=
  match gen with
  | PQGenConn.done rv => WaitOutcome.ok rv
  | PQGenConn.yield fileno s k => waitConnGo (normTimeout timeout) fileno s k oracle

/-- Loop body of `wait_async`.  Each oracle entry is the set (as a bitmask)
of readiness events the event loop fires during one `await asyncio.wait`;
only the futures actually created (one per requested interest bit) can
complete, so the merged result delivered to the generator is `d &&& s`.
`wait_async` takes no timeout: `asyncio.wait` is called without one. -/
def waitAsyncGo {RV : Type} : Nat → (Nat → PQGen RV) → List Nat → WaitOutcome RV
  | _, _, [] => WaitOutcome.pending
  | s, k, d :: rest =>
    if s &&& Wait.RW = 0 then WaitOutcome.internalBadStatus
    else
      match k (d &&& s) with
      | PQGen.done rv => WaitOutcome.ok rv
      | PQGen.yield s2 k2 => waitAsyncGo s2 k2 rest

/-- `wait_async(gen, fileno)` — no timeout parameter exists. -/
def wait_async {RV : Type} (gen : PQGen RV) (_fileno : Nat)
    (oracle : List Nat) : WaitOutcome RV :=
  match gen with
  | PQGen.done rv => WaitOutcome.ok rv
  | PQGen.yield s k => waitAsyncGo s k oracle

/-- Loop body of `wait_conn_async`.  As in `waitAsyncGo`, but
`asyncio.wait` is called with the (normalized) timeout and an empty `done`
set raises `OperationalError("timeout expired")`. -/
def waitConnAsyncGo {RV : Type} :
    Option Nat → Nat → Nat → (Nat → PQGenConn RV) → List Nat → WaitOutcome RV
  | _, _, _, _, [] => WaitOutcome.pending
  | timeout, _, s, k, d :: rest =>
    if s &&& Wait.RW = 0 then WaitOutcome.internalBadStatus
    else if d &&& s = 0 then WaitOutcome.operationalTimeout
    else
      match k (d &&& s) with
      | PQGenConn.done rv => WaitOutcome.ok rv
      | PQGenConn.yield f2 s2 k2 => waitConnAsyncGo timeout f2 s2 k2 rest

/-- `wait_conn_async(gen, timeout)`. -/
def wait_conn_async {RV : Type} (gen : PQGenConn RV) (timeout : Option Nat)
    (oracle : List Nat) : WaitOutcome RV :=
  match gen with
  | PQGenConn.done rv => WaitOutcome.ok rv
  | PQGenConn.yield fileno s k => waitConnAsyncGo (normTimeout timeout) fileno s k oracle

/-! ### Helper lemmas about the decimal name rendering -/

/-- Decode a big-endian list of ASCII digit bytes back to the number. -/
def unDec : List Nat → Nat
  | [] => 0
  | c :: cs => (c - 48) * 10 ^ cs.length + unDec cs

lemma unDec_append (xs ys : List Nat) :
    unDec (xs ++ ys) = unDec xs * 10 ^ ys.length + unDec ys := by
  induction xs with
  | nil => simp [unDec]
  | cons c cs ih =>
    simp only [List.cons_append, unDec, List.append_eq, ih, List.length_append, pow_add]
    ring

lemma unDec_natDecimalAux (fuel : Nat) : ∀ n : Nat, n ≤ fuel →
    unDec (natDecimalAux fuel n) = n := by
  induction fuel with
  | zero =>
    intro n hn
    interval_cases n
    simp [natDecimalAux, unDec]
  | succ fuel ih =>
    intro n hn
    by_cases h0 : n = 0
    · simp [natDecimalAux, h0, unDec]
    · have hdiv : n / 10 ≤ fuel := by
        have : n / 10 < n := Nat.div_lt_self (Nat.pos_of_ne_zero h0) (by omega)
        omega
      simp only [natDecimalAux, h0, if_false, unDec_append, ih (n / 10) hdiv]
      simp [unDec]
      omega

lemma unDec_natDecimal (n : Nat) : unDec (natDecimal n) = n := by
  by_cases h0 : n = 0
  · simp [natDecimal, h0, unDec]
  · simp [natDecimal, h0, unDec_natDecimalAux n n le_rfl]

lemma natDecimal_inj {a b : Nat} (h : natDecimal a = natDecimal b) : a = b := by
  have := congrArg unDec h
  rwa [unDec_natDecimal, unDec_natDecimal] at this

lemma pg3Name_inj {a b : Nat} (h : pg3Name a = pg3Name b) : a = b := by
  unfold pg3Name at h
  simp only [List.cons_append, List.nil_append, List.cons.injEq, true_and] at h
  exact natDecimal_inj h

/-! ### State-preservation lemmas for `PrepareManager` operations -/

lemma should_discard_state (m : PrepareManager) (prep : Prepare) (rs : List PGresult) :
    (m.should_discard prep rs).2 = m ∨
    (m.should_discard prep rs).2 = { m with _prepared := [] } := by
  unfold PrepareManager.should_discard
  split
  · split
    · exact Or.inr rfl
    · exact Or.inl rfl
  · exact Or.inl rfl

lemma should_discard_none_eq (m : PrepareManager) (prep : Prepare) (rs : List PGresult)
    (h : (m.should_discard prep rs).1 = none) : (m.should_discard prep rs).2 = m := by
  unfold PrepareManager.should_discard at h ⊢
  by_cases h1 : m._prepared ≠ [] ∨ prep = Prepare.SHOULD
  · simp only [if_pos h1] at h ⊢
    by_cases h2 : rs.any discardMatch
    · simp [h2] at h
    · simp [h2]
  · simp [h1]

lemma removeKey_len {l : List (Key × Value)} {k : Key} {v : Value}
    (h : listGet l k = some v) : (removeKey l k).length + 1 = l.length := by
  induction l with
  | nil => simp [listGet] at h
  | cons a t ih =>
    obtain ⟨ak, av⟩ := a
    by_cases hk : ak = k
    · simp [removeKey, hk]
    · simp only [listGet, if_neg hk] at h
      simp [removeKey, hk, ih h]

lemma setdefault_state (m : PrepareManager) (q : PostgresQuery) (prep : Prepare)
    (name : List Nat) :
    ((m.setdefault q prep name).2)._prepared.length = m._prepared.length ∧
    ((m.setdefault q prep name).2).prepare_threshold = m.prepare_threshold ∧
    ((m.setdefault q prep name).2).prepared_max = m.prepared_max ∧
    ((m.setdefault q prep name).2)._prepared_idx = m._prepared_idx := by
  unfold PrepareManager.setdefault
  cases h : listGet m._prepared (PrepareManager.key q) with
  | none => simp [h]
  | some v =>
    have hlen := removeKey_len h
    simp [h]
    omega

lemma setdefault_some_eq (m : PrepareManager) (q : PostgresQuery) (prep : Prepare)
    (name : List Nat) (kv : Key × Value)
    (h : (m.setdefault q prep name).1 = some kv) : (m.setdefault q prep name).2 = m := by
  unfold PrepareManager.setdefault at h ⊢
  cases hg : listGet m._prepared (PrepareManager.key q) with
  | none => simp [hg]
  | some v => simp [hg] at h

lemma get_state (m : PrepareManager) (q : PostgresQuery) (p : Option Bool) :
    (m.get q p).2 = m ∨
    (m.get q p).2 = { m with _prepared_idx := m._prepared_idx + 1 } := by
  unfold PrepareManager.get
  by_cases h1 : p = some false ∨ m.prepare_threshold = none
  · simp [h1]
  · obtain ⟨hpf, hthn⟩ := not_or.mp h1
    rw [if_neg h1]
    cases hg : listGet m._prepared (PrepareManager.key q) with
    | none =>
      obtain ⟨th, hth⟩ := Option.ne_none_iff_exists'.mp hthn
      simp only [hg, hth]
      split <;> simp
    | some v =>
      cases v with
      | name b => simp [hg]
      | count n =>
        obtain ⟨th, hth⟩ := Option.ne_none_iff_exists'.mp hthn
        simp only [hg, hth]
        split <;> simp

lemma maintain_preserves (m : PrepareManager) (q : PostgresQuery) (rs : List PGresult)
    (prep : Prepare) (nm : List Nat) :
    ((m.maintain q rs prep nm).2).prepare_threshold = m.prepare_threshold ∧
    ((m.maintain q rs prep nm).2).prepared_max = m.prepared_max ∧
    ((m.maintain q rs prep nm).2)._prepared_idx = m._prepared_idx ∧
    (m._prepared.length ≤ m.prepared_max →
      ((m.maintain q rs prep nm).2)._prepared.length ≤ m.prepared_max) := by
  unfold PrepareManager.maintain
  cases hth : m.prepare_threshold with
  | none => simp [hth]
  | some th =>
    rcases hsd : m.should_discard prep rs with ⟨cmdOpt, m1⟩
    have hstate := should_discard_state m prep rs
    rw [hsd] at hstate
    dsimp only at hstate
    cases cmdOpt with
    | some cmd =>
      dsimp only
      rcases hstate with hs | hs <;> rw [hs] <;> simp [hth]
    | none =>
      have hm1 : m1 = m := by
        have h0 := should_discard_none_eq m prep rs (by rw [hsd])
        rw [hsd] at h0
        exact h0
      dsimp only
      rw [hm1]
      rcases hsdf : PrepareManager.setdefault m q prep nm with ⟨cachedOpt, m2⟩
      have hsfields := setdefault_state m q prep nm
      rw [hsdf] at hsfields
      dsimp only at hsfields
      obtain ⟨hlen2, hth2, hmax2, hidx2⟩ := hsfields
      cases cachedOpt with
      | none =>
        dsimp only
        refine ⟨by rw [hth2, hth], hmax2, hidx2, ?_⟩
        intro h
        omega
      | some kv =>
        obtain ⟨key, value⟩ := kv
        have hm2 : m2 = m := by
          have h0 := setdefault_some_eq m q prep nm (key, value) (by rw [hsdf])
          rw [hsdf] at h0
          exact h0
        dsimp only
        rw [hm2]
        rcases rs with _ | ⟨r, _ | ⟨r2, rest0⟩⟩
        · simp [hth]
        · dsimp only
          by_cases hstat : ¬r.status = ExecStatus.COMMAND_OK ∧ ¬r.status = ExecStatus.TUPLES_OK
          · rw [if_pos hstat]
            simp [hth]
          · rw [if_neg hstat]
            by_cases hfit : (m._prepared ++ [(key, value)]).length ≤ m.prepared_max
            · rw [if_pos hfit]
              refine ⟨by simp [hth], by simp, by simp, ?_⟩
              intro h
              exact hfit
            · rw [if_neg hfit]
              rcases hc : m._prepared ++ [(key, value)] with _ | ⟨old, tl⟩
              · simp at hc
              · have hlen : m._prepared.length + 1 = tl.length + 1 := by
                  have := congrArg List.length hc
                  simpa using this
                dsimp only
                refine ⟨by simp [hth], by simp, by simp, ?_⟩
                intro h
                omega
        · simp [hth]

lemma stepOp_preserves (m : PrepareManager) (op : CacheOp) :
    (stepOp m op).prepared_max = m.prepared_max ∧
    (m._prepared.length ≤ m.prepared_max →
      (stepOp m op)._prepared.length ≤ m.prepared_max) := by
  cases op with
  | get q p =>
    rcases get_state m q p with hs | hs <;>
      simp [stepOp, hs]
  | maintain q rs prep nm =>
    obtain ⟨_, hmax, _, hbound⟩ := maintain_preserves m q rs prep nm
    exact ⟨hmax, hbound⟩
  | clear =>
    simp only [stepOp]
    unfold PrepareManager.clear
    split <;> simp

lemma runOps_preserves (m : PrepareManager) (ops : List CacheOp)
    (h : m._prepared.length ≤ m.prepared_max) :
    (runOps m ops)._prepared.length ≤ (runOps m ops).prepared_max ∧
    (runOps m ops).prepared_max = m.prepared_max := by
  induction ops generalizing m with
  | nil => exact ⟨h, rfl⟩
  | cons op ops ih =>
    obtain ⟨hmax, hbound⟩ := stepOp_preserves m op
    have hstep : (stepOp m op)._prepared.length ≤ (stepOp m op).prepared_max := by
      rw [hmax]
      exact hbound h
    obtain ⟨ih1, ih2⟩ := ih (stepOp m op) hstep
    exact ⟨by simpa [runOps] using ih1, by simp only [runOps]; rw [ih2, hmax]⟩

/-- Claim C3: starting from the empty cache with configured maximum `M`,
after any sequence of public operations (`get`, `maintain`, `clear`) the
number of cached fingerprint entries is at most `M`. -/
theorem c3_cache_bounded (th : Option Nat) (M : Nat) (ops : List CacheOp) :
    ((runOps (mkPM th M) ops)._prepared).length ≤ M := by
  have h := runOps_preserves (mkPM th M) ops (by simp [mkPM])
  calc ((runOps (mkPM th M) ops)._prepared).length
      ≤ (runOps (mkPM th M) ops).prepared_max := h.1
    _ = M := h.2

/-! ### Iterated eligible recordings (for the threshold-promotion claim) -/

/-- One eligible `record()` call for query `q`: `maintain` with a single
`COMMAND_OK` result carrying no command tag, a `Skip` (`Prepare.NO`)
decision and no assigned name. -/
def recEligible (q : PostgresQuery) (m : PrepareManager) : PrepareManager :=
  (m.maintain q [{ status := ExecStatus.COMMAND_OK, command_status := none }] Prepare.NO []).2

/-- `recN q k m`: `k` successive eligible recordings of `q` starting from `m`. -/
def recN (q : PostgresQuery) : Nat → PrepareManager → PrepareManager
  | 0, m => m
  | k + 1, m => recEligible q (recN q k m)

lemma recEligible_fresh (T M : Nat) (q : PostgresQuery) (hM : 1 ≤ M) :
    recEligible q (mkPM (some T) M) =
      { prepare_threshold := some T, prepared_max := M,
        _prepared := [(PrepareManager.key q, Value.count 1)], _prepared_idx := 0 } := by
  unfold recEligible PrepareManager.maintain PrepareManager.should_discard
    PrepareManager.setdefault mkPM
  simp [listGet, discardMatch, hM]

lemma recEligible_step (T M k idx : Nat) (q : PostgresQuery) :
    recEligible q
      { prepare_threshold := some T, prepared_max := M,
        _prepared := [(PrepareManager.key q, Value.count k)], _prepared_idx := idx } =
      { prepare_threshold := some T, prepared_max := M,
        _prepared := [(PrepareManager.key q, Value.count (k + 1))], _prepared_idx := idx } := by
  unfold recEligible PrepareManager.maintain PrepareManager.should_discard
    PrepareManager.setdefault
  simp [listGet, discardMatch, removeKey]

lemma recN_state (T M : Nat) (q : PostgresQuery) (hM : 1 ≤ M) :
    ∀ k, 1 ≤ k → recN q k (mkPM (some T) M) =
      { prepare_threshold := some T, prepared_max := M,
        _prepared := [(PrepareManager.key q, Value.count k)], _prepared_idx := 0 } := by
  intro k
  induction k with
  | zero => omega
  | succ k ih =>
    intro _
    by_cases hk : 1 ≤ k
    · show recEligible q (recN q k (mkPM (some T) M)) = _
      rw [ih hk, recEligible_step]
    · have hk0 : k = 0 := by omega
      subst hk0
      show recEligible q (recN q 0 (mkPM (some T) M)) = _
      show recEligible q (mkPM (some T) M) = _
      rw [recEligible_fresh T M q hM]

lemma get_count_state (T M k idx : Nat) (q : PostgresQuery) :
    (({ prepare_threshold := some T, prepared_max := M,
        _prepared := [(PrepareManager.key q, Value.count k)],
        _prepared_idx := idx } : PrepareManager).get q none).1 =
      if T ≤ k then (Prepare.SHOULD, pg3Name idx) else (Prepare.NO, []) := by
  unfold PrepareManager.get
  simp [listGet]
  split <;> rfl

/-- Claim C1: with threshold `T ≥ 1` and capacity `M ≥ 1` configured and no
explicit override, for a fresh fingerprint `q`: after exactly `T - 1`
eligible recordings `get` still answers `NO` (Skip), and after the `T`-th it
answers `SHOULD` (ShouldPrepare) with the fresh name generated by the
counter (which is still at `0`). -/
theorem c1_threshold_promotion (T M : Nat) (q : PostgresQuery)
    (hT : 1 ≤ T) (hM : 1 ≤ M) :
    ((recN q (T - 1) (mkPM (some T) M)).get q none).1.1 = Prepare.NO ∧
    ((recN q T (mkPM (some T) M)).get q none).1 = (Prepare.SHOULD, pg3Name 0) := by
  constructor
  · by_cases h1 : T = 1
    · subst h1
      show ((recN q 0 (mkPM (some 1) M)).get q none).1.1 = Prepare.NO
      show (((mkPM (some 1) M)).get q none).1.1 = Prepare.NO
      unfold PrepareManager.get mkPM
      simp [listGet]
    · have h2 : 1 ≤ T - 1 := by omega
      rw [recN_state T M q hM (T - 1) h2, get_count_state]
      rw [if_neg (by omega)]
  · rw [recN_state T M q hM T hT, get_count_state]
    rw [if_pos le_rfl]

/-- Concrete query used in witnesses: bytes of "SELECT $1", parameter type
OID 23 (int4). -/
def qA : PostgresQuery := { query := [83, 69, 76, 69, 67, 84, 32, 36, 49], types := [23] }

/-- A second concrete query, distinct from `qA`: bytes of "SELECT 2". -/
def qB : PostgresQuery := { query := [83, 69, 76, 69, 67, 84, 32, 50], types := [] }

/-- Witness for C1 at `T = 3`, `M = 2`, `q = qA`. -/
theorem c1_threshold_promotion_witness :
    ((1 : Nat) ≤ 3 ∧ (1 : Nat) ≤ 2) ∧
    (((recN qA (3 - 1) (mkPM (some 3) 2)).get qA none).1.1 = Prepare.NO ∧
     ((recN qA 3 (mkPM (some 3) 2)).get qA none).1 = (Prepare.SHOULD, pg3Name 0)) :=
  ⟨⟨by decide, by decide⟩, c1_threshold_promotion 3 2 qA (by decide) (by decide)⟩

/-- The value `maintain` inserts for a fresh fingerprint. -/
def insVal (prep : Prepare) (name : List Nat) : Value :=
  if prep = Prepare.SHOULD then Value.name name else Value.count 1

/-- The command produced when entry `kv` is evicted by `popitem(last=False)`. -/
def evictCmd : Key × Value → Option (List Nat)
  | (_, Value.name b) => some (DEALLOCATE_SP ++ b)
  | (_, Value.count _) => none

/-- Claim C4: when a `maintain` call inserts a fresh fingerprint and the
insertion pushes the cache over `prepared_max`, exactly one entry is
removed, namely the least-recently-touched one (the front `old` of the
recency list), and the call returns `DEALLOCATE <name>` exactly when the
evicted value was a prepared name. -/
theorem c4_eviction_lru (m : PrepareManager) (q : PostgresQuery) (r : PGresult)
    (prep : Prepare) (nm : List Nat) (th : Nat)
    (old : Key × Value) (tl : List (Key × Value))
    (hth : m.prepare_threshold = some th)
    (hdisc : (m.should_discard prep [r]).1 = none)
    (hfresh : listGet m._prepared (PrepareManager.key q) = none)
    (hst : r.status = ExecStatus.COMMAND_OK ∨ r.status = ExecStatus.TUPLES_OK)
    (hover : m.prepared_max < (m._prepared ++ [(PrepareManager.key q, insVal prep nm)]).length)
    (hc : m._prepared ++ [(PrepareManager.key q, insVal prep nm)] = old :: tl) :
    m.maintain q [r] prep nm = (evictCmd old, { m with _prepared := tl }) := by
  have hsd : m.should_discard prep [r] = (none, m) := by
    have h2 := should_discard_none_eq m prep [r] hdisc
    rcases hx : m.should_discard prep [r] with ⟨c, mm⟩
    rw [hx] at hdisc h2
    dsimp only at hdisc h2
    rw [hdisc, h2]
  have hsdf : PrepareManager.setdefault m q prep nm =
      (some (PrepareManager.key q, insVal prep nm), m) := by
    unfold PrepareManager.setdefault insVal
    simp [hfresh]
  unfold PrepareManager.maintain
  simp only [hth, hsd, hsdf]
  rw [if_neg (by rcases hst with h | h <;> simp [h])]
  rw [if_neg (by omega)]
  rw [hc]
  obtain ⟨ok, ov⟩ := old
  cases ov <;> rfl

/-- Manager state for the C4 witness: capacity 1, one prepared entry. -/
def c4m : PrepareManager :=
  { prepare_threshold := some 5, prepared_max := 1,
    _prepared := [(PrepareManager.key qA, Value.name (pg3Name 0))], _prepared_idx := 1 }

/-- Witness for C4: inserting `qB` into a full one-slot cache evicts the
prepared entry for `qA` and returns `DEALLOCATE _pg3_0`. -/
theorem c4_eviction_lru_witness :
    (c4m.prepare_threshold = some 5 ∧
     (c4m.should_discard Prepare.NO [{ status := ExecStatus.TUPLES_OK, command_status := none }]).1 = none ∧
     listGet c4m._prepared (PrepareManager.key qB) = none ∧
     (({ status := ExecStatus.TUPLES_OK, command_status := none } : PGresult).status = ExecStatus.COMMAND_OK ∨
       ({ status := ExecStatus.TUPLES_OK, command_status := none } : PGresult).status = ExecStatus.TUPLES_OK)) ∧
    c4m.maintain qB [{ status := ExecStatus.TUPLES_OK, command_status := none }] Prepare.NO [] =
      (evictCmd (PrepareManager.key qA, Value.name (pg3Name 0)),
       { c4m with _prepared := [(PrepareManager.key qB, insVal Prepare.NO [])] }) :=
  ⟨⟨by decide, by decide, by decide, Or.inr (by decide)⟩,
   c4_eviction_lru c4m qB { status := ExecStatus.TUPLES_OK, command_status := none }
     Prepare.NO [] 5
     (PrepareManager.key qA, Value.name (pg3Name 0))
     [(PrepareManager.key qB, insVal Prepare.NO [])]
     (by decide) (by decide) (by decide) (by decide) (by decide) (by decide)⟩

/-- Manager state with a non-empty cache, used by several examples. -/
def c2m : PrepareManager :=
  { prepare_threshold := some 5, prepared_max := 100,
    _prepared := [(PrepareManager.key qA, Value.count 1)], _prepared_idx := 0 }

/-- Counterexample to C2 as stated.  First conjunct: with an empty cache and
a Skip decision, a `COMMAND_OK` result tagged `ROLLBACK` does not clear
anything and returns no command (the invalidation scan is gated on a
non-empty cache or a promotion) — processing even continues and caches the
fingerprint.  Second conjunct: the bare tag "DROP" (leading token `DROP`,
no trailing space) does not trigger invalidation even on a non-empty cache. -/
theorem c2_counterexample :
    (mkPM (some 5) 100).maintain qA
        [{ status := ExecStatus.COMMAND_OK, command_status := some ROLLBACK_TAG }]
        Prepare.NO [] =
      (none, { mkPM (some 5) 100 with
                 _prepared := [(PrepareManager.key qA, Value.count 1)] }) ∧
    ((c2m.maintain qB
        [{ status := ExecStatus.COMMAND_OK, command_status := some [68, 82, 79, 80] }]
        Prepare.NO []).1 = none ∧
     (c2m.maintain qB
        [{ status := ExecStatus.COMMAND_OK, command_status := some [68, 82, 79, 80] }]
        Prepare.NO []).2._prepared ≠ []) := by
  refine ⟨by decide, by decide, by decide⟩

/-- Claim C2 (amended): provided preparing is enabled (threshold set) and
the invalidation scan is reached (cache non-empty, or the decision is
ShouldPrepare), any `maintain` call whose results contain a `COMMAND_OK`
entry whose tag starts with the bytes "DROP " or equals "ROLLBACK" clears
the entire cache, leaves the name counter untouched, and returns
`DEALLOCATE ALL` with no further processing. -/
theorem c2_invalidation_amended (m : PrepareManager) (q : PostgresQuery)
    (results : List PGresult) (prep : Prepare) (nm : List Nat) (th : Nat)
    (hth : m.prepare_threshold = some th)
    (hgate : m._prepared ≠ [] ∨ prep = Prepare.SHOULD)
    (hmatch : ∃ r ∈ results, discardMatch r = true) :
    m.maintain q results prep nm = (some DEALLOCATE_ALL, { m with _prepared := [] }) := by
  have hany : results.any discardMatch = true := by
    rw [List.any_eq_true]
    simpa using hmatch
  have hsd : m.should_discard prep results =
      (some DEALLOCATE_ALL, { m with _prepared := [] }) := by
    unfold PrepareManager.should_discard
    rw [if_pos hgate, if_pos hany]
  unfold PrepareManager.maintain
  simp only [hth, hsd]

/-- Witness for the amended C2: a `ROLLBACK` `COMMAND_OK` result on a
non-empty cache clears it and yields `DEALLOCATE ALL`. -/
theorem c2_invalidation_amended_witness :
    (c2m.prepare_threshold = some 5 ∧
     (c2m._prepared ≠ [] ∨ Prepare.NO = Prepare.SHOULD) ∧
     (∃ r ∈ [({ status := ExecStatus.COMMAND_OK, command_status := some ROLLBACK_TAG } : PGresult)],
        discardMatch r = true)) ∧
    c2m.maintain qB
        [{ status := ExecStatus.COMMAND_OK, command_status := some ROLLBACK_TAG }]
        Prepare.NO [] =
      (some DEALLOCATE_ALL, { c2m with _prepared := [] }) :=
  ⟨⟨by decide, Or.inl (by decide), by decide⟩,
   c2_invalidation_amended c2m qB
     [{ status := ExecStatus.COMMAND_OK, command_status := some ROLLBACK_TAG }]
     Prepare.NO [] 5 (by decide) (Or.inl (by decide)) (by decide)⟩

/-- Counterexample to C9 as stated: the tag consisting of exactly the bytes
"DROP" has leading whitespace-delimited token `DROP`, yet invalidation does
not trigger: `should_discard` matches `startswith(b"DROP ")`, which requires
the trailing space, so it returns no command and leaves the non-empty cache
untouched. -/
theorem c9_counterexample :
    c2m.should_discard Prepare.NO
        [{ status := ExecStatus.COMMAND_OK, command_status := some [68, 82, 79, 80] }] =
      (none, c2m) := by decide

/-- Claim C9 (amended): matching is exact and byte-level, with no
normalization: on a non-empty cache, a single `COMMAND_OK` result with tag
`tag` clears the cache and yields `DEALLOCATE ALL` iff `tag` starts with
the five bytes "DROP " (`DROP` followed by a space) or equals "ROLLBACK";
in particular the bare tag "DROP" does not trigger. -/
theorem c9_matching_amended (m : PrepareManager) (prep : Prepare) (tag : List Nat)
    (hne : m._prepared ≠ []) :
    (m.should_discard prep [{ status := ExecStatus.COMMAND_OK, command_status := some tag }] =
        (some DEALLOCATE_ALL, { m with _prepared := [] }))
      ↔ (DROP_SP.isPrefixOf tag = true ∨ tag = ROLLBACK_TAG) := by
  unfold PrepareManager.should_discard
  rw [if_pos (Or.inl hne)]
  have hany :
      ([({ status := ExecStatus.COMMAND_OK, command_status := some tag } : PGresult)].any
        discardMatch) =
      (!tag.isEmpty && (DROP_SP.isPrefixOf tag || tag == ROLLBACK_TAG)) := by
    simp [discardMatch]
  rw [hany]
  rcases eq_or_ne tag [] with htag | htag
  · subst htag
    simp [ROLLBACK_TAG]
    all_goals decide
  · have hemp : tag.isEmpty = false := by simpa [List.isEmpty_iff] using htag
    rw [hemp]
    simp only [Bool.not_false, Bool.true_and]
    by_cases hp : (DROP_SP.isPrefixOf tag || tag == ROLLBACK_TAG) = true
    · rw [if_pos hp]
      have hyes : DROP_SP.isPrefixOf tag = true ∨ tag = ROLLBACK_TAG := by
        simpa [Bool.or_eq_true, beq_iff_eq] using hp
      have hyes2 : DROP_SP <+: tag ∨ tag = ROLLBACK_TAG := by
        rcases hyes with h | h
        · exact Or.inl (List.isPrefixOf_iff_prefix.mp h)
        · exact Or.inr h
      simp [hyes2]
    · rw [if_neg hp]
      have hno : ¬(DROP_SP.isPrefixOf tag = true ∨ tag = ROLLBACK_TAG) := by
        simpa [Bool.or_eq_true, beq_iff_eq] using hp
      have hno2 : ¬(DROP_SP <+: tag ∨ tag = ROLLBACK_TAG) := by
        intro hcon
        rcases hcon with h | h
        · exact hno (Or.inl (List.isPrefixOf_iff_prefix.mpr h))
        · exact hno (Or.inr h)
      simp [hno2]

/-- Witness for the amended C9 at the `ROLLBACK` tag on a non-empty cache. -/
theorem c9_matching_amended_witness :
    c2m._prepared ≠ [] ∧
    ((c2m.should_discard Prepare.NO
        [{ status := ExecStatus.COMMAND_OK, command_status := some ROLLBACK_TAG }] =
        (some DEALLOCATE_ALL, { c2m with _prepared := [] }))
      ↔ (DROP_SP.isPrefixOf ROLLBACK_TAG = true ∨ ROLLBACK_TAG = ROLLBACK_TAG)) :=
  ⟨by decide, c9_matching_amended c2m Prepare.NO ROLLBACK_TAG (by decide)⟩

/-- Counterexample to C6 as stated: for an unseen fingerprint (not recorded
at all, hence not recorded as `SeenCount(n)`) with explicit override
`prepare = True`, `get` returns `SHOULD` (ShouldPrepare), not `Skip`. -/
theorem c6_counterexample :
    listGet (mkPM (some 5) 100)._prepared (PrepareManager.key qA) = none ∧
    ((mkPM (some 5) 100).get qA (some true)).1.1 = Prepare.SHOULD := by decide

/-- The `value` read by `get`: the recorded seen-count, or `0` when the
fingerprint is unseen (the `self._prepared.get(key, 0)` default). -/
def seenCount (m : PrepareManager) (q : PostgresQuery) : Nat :=
  match listGet m._prepared (PrepareManager.key q) with
  | some (Value.count n) => n
  | _ => 0

/-- Whether the fingerprint is recorded as an (already prepared) name. -/
def isNameEntry (m : PrepareManager) (q : PostgresQuery) : Bool :=
  match listGet m._prepared (PrepareManager.key q) with
  | some (Value.name _) => true
  | _ => false

/-- Claim C6 (amended): with a configured threshold, no forced-off override
and a fingerprint not recorded as a prepared name, `get` returns `SHOULD`
exactly when the recorded count (`0` when unseen) reaches the threshold or
the override is `True` — in particular, an unseen fingerprint with
override `True` gets `SHOULD`; otherwise `get` returns `NO`, and a `SHOULD`
answer carries the fresh name built from the current counter. -/
theorem c6_decide_amended (m : PrepareManager) (q : PostgresQuery)
    (prepare : Option Bool) (th : Nat)
    (hth : m.prepare_threshold = some th)
    (hpf : prepare ≠ some false)
    (hname : isNameEntry m q = false) :
    ((m.get q prepare).1.1 = Prepare.SHOULD ↔ (th ≤ seenCount m q ∨ prepare = some true)) ∧
    ((m.get q prepare).1.1 = Prepare.NO ↔ ¬(th ≤ seenCount m q ∨ prepare = some true)) ∧
    ((m.get q prepare).1.1 = Prepare.SHOULD →
      (m.get q prepare).1.2 = pg3Name m._prepared_idx) := by
  unfold PrepareManager.get
  rw [if_neg (by simp [hpf, hth])]
  cases hg : listGet m._prepared (PrepareManager.key q) with
  | none =>
    have hsc : seenCount m q = 0 := by simp [seenCount, hg]
    simp only [hg, hth, hsc]
    split <;> rename_i h
    · exact ⟨iff_of_true rfl h, iff_of_false (by simp) (not_not_intro h), fun _ => rfl⟩
    · exact ⟨iff_of_false (by simp) h, iff_of_true rfl h, fun hx => absurd hx (by simp)⟩
  | some v =>
    cases v with
    | name b =>
      rw [isNameEntry, hg] at hname
      simp at hname
    | count n =>
      have hsc : seenCount m q = n := by simp [seenCount, hg]
      simp only [hg, hth, hsc]
      split <;> rename_i h
      · exact ⟨iff_of_true rfl h, iff_of_false (by simp) (not_not_intro h), fun _ => rfl⟩
      · exact ⟨iff_of_false (by simp) h, iff_of_true rfl h, fun hx => absurd hx (by simp)⟩

/-- Witness for the amended C6: fresh manager, threshold 5, override `True`:
`get` answers `SHOULD` with name `_pg3_0`. -/
theorem c6_decide_amended_witness :
    ((mkPM (some 5) 100).prepare_threshold = some 5 ∧
     (some true : Option Bool) ≠ some false ∧
     isNameEntry (mkPM (some 5) 100) qA = false) ∧
    ((((mkPM (some 5) 100).get qA (some true)).1.1 = Prepare.SHOULD ↔
        (5 ≤ seenCount (mkPM (some 5) 100) qA ∨ (some true : Option Bool) = some true)) ∧
     (((mkPM (some 5) 100).get qA (some true)).1.1 = Prepare.NO ↔
        ¬(5 ≤ seenCount (mkPM (some 5) 100) qA ∨ (some true : Option Bool) = some true)) ∧
     (((mkPM (some 5) 100).get qA (some true)).1.1 = Prepare.SHOULD →
        ((mkPM (some 5) 100).get qA (some true)).1.2 =
          pg3Name (mkPM (some 5) 100)._prepared_idx)) :=
  ⟨⟨by decide, by decide, by decide⟩,
   c6_decide_amended (mkPM (some 5) 100) qA (some true) 5 (by decide) (by decide) (by decide)⟩

/-- Counterexample to C5 as stated: within one connection, two `decide`
(`get`) calls both answer `SHOULD` with the same name `_pg3_0`, because the
intervening `clear()` resets the name counter to zero (while returning
`DEALLOCATE ALL`). -/
theorem c5_counterexample :
    (((mkPM (some 5) 100).get qA (some true)).1 = (Prepare.SHOULD, pg3Name 0)) ∧
    ((((mkPM (some 5) 100).get qA (some true)).2.clear).1 = some DEALLOCATE_ALL) ∧
    (((((mkPM (some 5) 100).get qA (some true)).2.clear).2.get qA (some true)).1 =
      (Prepare.SHOULD, pg3Name 0)) := by decide

lemma get_idx_le (m : PrepareManager) (q : PostgresQuery) (p : Option Bool) :
    m._prepared_idx ≤ ((m.get q p).2)._prepared_idx := by
  rcases get_state m q p with hs | hs
  · rw [hs]
  · rw [hs]
    simp

lemma get_should_name (m : PrepareManager) (q : PostgresQuery) (p : Option Bool)
    (h : (m.get q p).1.1 = Prepare.SHOULD) :
    (m.get q p).1.2 = pg3Name m._prepared_idx ∧
    ((m.get q p).2)._prepared_idx = m._prepared_idx + 1 := by
  unfold PrepareManager.get at h ⊢
  by_cases h1 : p = some false ∨ m.prepare_threshold = none
  · rw [if_pos h1] at h
    simp at h
  · rw [if_neg h1] at h ⊢
    have hthn : m.prepare_threshold ≠ none := (not_or.mp h1).2
    obtain ⟨th, hth⟩ := Option.ne_none_iff_exists'.mp hthn
    cases hg : listGet m._prepared (PrepareManager.key q) with
    | none =>
      simp only [hg, hth] at h ⊢
      by_cases hcond : th ≤ 0 ∨ p = some true
      · rw [if_pos hcond]
        exact ⟨rfl, rfl⟩
      · rw [if_neg hcond] at h
        simp at h
    | some v =>
      cases v with
      | name b =>
        simp only [hg] at h
        simp at h
      | count n =>
        simp only [hg, hth] at h ⊢
        by_cases hcond : th ≤ n ∨ p = some true
        · rw [if_pos hcond]
          exact ⟨rfl, rfl⟩
        · rw [if_neg hcond] at h
          simp at h

lemma runOps_idx_le (m : PrepareManager) (ops : List CacheOp)
    (h : CacheOp.clear ∉ ops) :
    m._prepared_idx ≤ (runOps m ops)._prepared_idx := by
  induction ops generalizing m with
  | nil => exact le_rfl
  | cons op ops ih =>
    have hop : op ≠ CacheOp.clear := fun e => h (by rw [e]; exact List.mem_cons_self _ _)
    have h2 : CacheOp.clear ∉ ops := fun hm => h (List.mem_cons_of_mem _ hm)
    have hstep : m._prepared_idx ≤ (stepOp m op)._prepared_idx := by
      cases op with
      | get q p => exact get_idx_le m q p
      | maintain q rs prep nm =>
        exact le_of_eq ((maintain_preserves m q rs prep nm).2.2.1).symm
      | clear => exact absurd rfl hop
    exact le_trans hstep (ih (stepOp m op) h2)

/-- Claim C5 (amended): prepared-statement names are unique as long as no
`clear()` (reset) intervenes: if a `get` answers `SHOULD`, and after any
further sequence of `get`/`maintain` operations (evictions included, but no
`clear`) another `get` answers `SHOULD`, the two returned names differ — a
name is never reused after mere eviction, since eviction does not touch the
counter.  Across a `clear()` the counter restarts and names do repeat. -/
theorem c5_names_unique_amended (m : PrepareManager) (q1 q2 : PostgresQuery)
    (p1 p2 : Option Bool) (ops : List CacheOp)
    (h1 : (m.get q1 p1).1.1 = Prepare.SHOULD)
    (hops : CacheOp.clear ∉ ops)
    (h2 : ((runOps ((m.get q1 p1).2) ops).get q2 p2).1.1 = Prepare.SHOULD) :
    (m.get q1 p1).1.2 ≠ ((runOps ((m.get q1 p1).2) ops).get q2 p2).1.2 := by
  obtain ⟨hn1, hi1⟩ := get_should_name m q1 p1 h1
  obtain ⟨hn2, _⟩ := get_should_name _ q2 p2 h2
  have hle := runOps_idx_le ((m.get q1 p1).2) ops hops
  rw [hn1, hn2]
  intro heq
  have := pg3Name_inj heq
  omega

/-- Witness for the amended C5: two consecutive overridden `get` calls (no
`clear` in between) return distinct names. -/
theorem c5_names_unique_amended_witness :
    ((((mkPM (some 5) 100).get qA (some true)).1.1 = Prepare.SHOULD) ∧
     (CacheOp.clear ∉ ([] : List CacheOp)) ∧
     (((runOps (((mkPM (some 5) 100).get qA (some true)).2) []).get qA (some true)).1.1 =
        Prepare.SHOULD)) ∧
    ((mkPM (some 5) 100).get qA (some true)).1.2 ≠
      ((runOps (((mkPM (some 5) 100).get qA (some true)).2) []).get qA (some true)).1.2 :=
  ⟨⟨by decide, by simp, by decide⟩,
   c5_names_unique_amended (mkPM (some 5) 100) qA qA (some true) (some true) []
     (by decide) (by simp) (by decide)⟩

/-- Counterexample to C7 as stated: the connection-establishment strategy
(`wait_conn`) performs no assertion.  The driver requests read-readiness
(`Wait.R`); the observed result is write-readiness (`Ready.W`), sharing no
bit with the request; yet the adaptor resumes the driver with it — the
driver here returns the observed value, so the run completes normally with
`Ready.W` — instead of failing fatally. -/
theorem c7_counterexample :
    Wait.R &&& Ready.W = 0 ∧
    wait_conn (PQGenConn.yield 5 Wait.R (fun r => PQGenConn.done r)) none [[Ready.W]] =
      WaitOutcome.ok Ready.W :=
  ⟨by decide, rfl⟩

/-- Claim C7 (amended): the blocking multiplexed (`wait_selector`) and
edge-notification (`wait_epoll`) strategies fail fatally (`assert s & ready`)
whenever the observed readiness shares no bit with the request just issued;
the connection-establishment strategy `wait_conn` performs no such check
and resumes the driver with the observed result (see the counterexample),
and the scheduler-based strategies only deliver results built from the
requested interests. -/
theorem c7_assert_amended {RV : Type} (s : Nat) (k : Nat → PQGen RV)
    (ready : Nat) (rl : List Nat) (rest : List (List Nat))
    (s2 : Nat) (k2 : Nat → PQGen RV) (ev : Nat) (evs : List Nat) (rest2 : List (List Nat))
    (h1 : s &&& ready = 0) (h2 : s2 &&& epollReady ev = 0) :
    waitSelectorGo s k ((ready :: rl) :: rest) = WaitOutcome.assertionFailed ∧
    waitEpollGo s2 k2 ((ev :: evs) :: rest2) = WaitOutcome.assertionFailed := by
  constructor
  · unfold waitSelectorGo
    rw [if_pos h1]
  · unfold waitEpollGo
    rw [if_pos h2]

/-- Witness for the amended C7: a read request observing only write
readiness trips the assertion in both strategies (`EPOLLOUT` translates to
write-readiness in the epoll strategy). -/
theorem c7_assert_amended_witness :
    (Wait.R &&& Ready.W = 0 ∧ Wait.R &&& epollReady EPOLLOUT = 0) ∧
    (waitSelectorGo Wait.R (fun r => PQGen.done r) [[Ready.W]] = WaitOutcome.assertionFailed ∧
     waitEpollGo Wait.R (fun r => PQGen.done r) [[EPOLLOUT]] = WaitOutcome.assertionFailed) :=
  ⟨⟨by decide, by decide⟩,
   c7_assert_amended Wait.R (fun r => PQGen.done r) Ready.W [] []
     Wait.R (fun r => PQGen.done r) EPOLLOUT [] [] (by decide) (by decide)⟩

/-- Counterexample to C8 as stated: `wait_async` has no timeout parameter
and raises no timeout error: across two wait rounds in which no readiness
future completes it is still blocked (`pending`), whereas `wait_conn_async`
with a timeout raises `OperationalError("timeout expired")` in the same
situation. -/
theorem c8_counterexample :
    wait_async
      (PQGen.yield Wait.R (fun _ =>
        PQGen.yield Wait.R (fun _ =>
          PQGen.yield Wait.R (fun _ => PQGen.done 7)))) 5 [0, 0] =
      WaitOutcome.pending ∧
    wait_conn_async (PQGenConn.yield 5 Wait.R (fun r => PQGenConn.done r)) (some 1) [0] =
      WaitOutcome.operationalTimeout :=
  ⟨rfl, rfl⟩

/-- Claim C8 (amended): only the connection-establishment coroutine
`wait_conn_async` supports an (optional, normalized) overall timeout: with
a timeout set, a wait round in which none of the created readiness futures
completes (`done` empty while futures were created) raises
`OperationalError("timeout expired")`.  The cooperative-scheduler strategy
`wait_async` takes no timeout and keeps waiting (see the counterexample). -/
theorem c8_timeout_amended {RV : Type} (timeout : Option Nat) (t fileno s : Nat)
    (k : Nat → PQGenConn RV) (d : Nat) (rest : List Nat)
    (_hnorm : normTimeout timeout = some t)
    (hs : s &&& Wait.RW ≠ 0) (hd : d &&& s = 0) :
    waitConnAsyncGo (normTimeout timeout) fileno s k (d :: rest) =
      WaitOutcome.operationalTimeout := by
  unfold waitConnAsyncGo
  rw [if_neg hs, if_pos hd]

/-- Witness for the amended C8: timeout 1, read request, no future fires. -/
theorem c8_timeout_amended_witness :
    (normTimeout (some 1) = some 1 ∧ Wait.R &&& Wait.RW ≠ 0 ∧ (0 : Nat) &&& Wait.R = 0) ∧
    waitConnAsyncGo (normTimeout (some 1)) 5 Wait.R
        (fun r => PQGenConn.done r) [0] = WaitOutcome.operationalTimeout :=
  ⟨⟨by decide, by decide, by decide⟩,
   c8_timeout_amended (some 1) 1 5 Wait.R (fun r => PQGenConn.done r) 0 []
     (by decide) (by decide) (by decide)⟩

lemma waitConnGo_no_timeout {RV : Type} (t : Option Nat) (o : List (List Nat))
    (h : ∀ rl ∈ o, rl ≠ []) :
    ∀ (f s : Nat) (k : Nat → PQGenConn RV),
      waitConnGo t f s k o ≠ WaitOutcome.operationalTimeout := by
  induction o with
  | nil =>
    intro f s k
    simp [waitConnGo]
  | cons rl rest ih =>
    intro f s k
    have hrl : rl ≠ [] := h rl (List.mem_cons_self _ _)
    have hrest : ∀ x ∈ rest, x ≠ [] := fun x hx => h x (List.mem_cons_of_mem _ hx)
    rcases rl with _ | ⟨ready, rl2⟩
    · exact absurd rfl hrl
    · rcases hk : k ready with rv | ⟨f2, s2, k2⟩
      · simp [waitConnGo, hk]
      · simp only [waitConnGo, hk]
        exact ih hrest f2 s2 k2

lemma waitConnAsyncGo_no_timeout {RV : Type} (t : Option Nat) (o : List Nat)
    (h : ∀ d ∈ o, ∀ s : Nat, s &&& Wait.RW ≠ 0 → d &&& s ≠ 0) :
    ∀ (f s : Nat) (k : Nat → PQGenConn RV),
      waitConnAsyncGo t f s k o ≠ WaitOutcome.operationalTimeout := by
  induction o with
  | nil =>
    intro f s k
    simp [waitConnAsyncGo]
  | cons d rest ih =>
    intro f s k
    have hd := h d (List.mem_cons_self _ _)
    have hrest : ∀ x ∈ rest, ∀ s : Nat, s &&& Wait.RW ≠ 0 → x &&& s ≠ 0 :=
      fun x hx => h x (List.mem_cons_of_mem _ hx)
    by_cases hs : s &&& Wait.RW = 0
    · simp [waitConnAsyncGo, hs]
    · have hdo : d &&& s ≠ 0 := hd s hs
      simp only [waitConnAsyncGo]
      rw [if_neg hs, if_neg hdo]
      rcases hk : k (d &&& s) with rv | ⟨f2, s2, k2⟩
      · simp [hk]
      · simp only [hk]
        exact ih hrest f2 s2 k2

/-- Claim C10: in both connection-establishment variants a timeout argument
of `0` is normalized to `None` (the `timeout = timeout or None` line) and
means wait indefinitely.  Under the blocking semantics of the underlying
waits — a `select` with no timeout never reports an empty event list, and
an untimed `asyncio.wait` returns only once a created future completed —
a call with timeout `0` behaves exactly like a call with no timeout and
never raises the "timeout expired" error. -/
theorem c10_zero_timeout {A B : Type} (g1 : PQGenConn A) (g2 : PQGenConn B)
    (o1 : List (List Nat)) (o2 : List Nat)
    (h1 : ∀ rl ∈ o1, rl ≠ [])
    (h2 : ∀ d ∈ o2, ∀ s : Nat, s &&& Wait.RW ≠ 0 → d &&& s ≠ 0) :
    normTimeout (some 0) = none ∧
    wait_conn g1 (some 0) o1 = wait_conn g1 none o1 ∧
    wait_conn_async g2 (some 0) o2 = wait_conn_async g2 none o2 ∧
    wait_conn g1 (some 0) o1 ≠ WaitOutcome.operationalTimeout ∧
    wait_conn_async g2 (some 0) o2 ≠ WaitOutcome.operationalTimeout := by
  refine ⟨rfl, rfl, rfl, ?_, ?_⟩
  · cases g1 with
    | done rv => simp [wait_conn]
    | yield f s k => exact waitConnGo_no_timeout _ o1 h1 f s k
  · cases g2 with
    | done rv => simp [wait_conn_async]
    | yield f s k => exact waitConnAsyncGo_no_timeout _ o2 h2 f s k

/-- A fully-ready oracle entry satisfies the asyncio blocking hypothesis. -/
lemma rwOracleBlocking : ∀ d ∈ [Ready.RW], ∀ s : Nat, s &&& Wait.RW ≠ 0 → d &&& s ≠ 0 := by
  intro d hd s hs
  have hd3 : d = 3 := by simpa [Ready.RW, EVENT_READ, EVENT_WRITE] using hd
  have hW : Wait.RW = 3 := by decide
  rw [hW] at hs
  subst hd3
  rw [Nat.and_comm]
  exact hs

/-- Witness for C10: a one-step driver, a select oracle reporting one
read-ready event, and an asyncio oracle firing both futures. -/
theorem c10_zero_timeout_witness :
    ((∀ rl ∈ [[Ready.R]], rl ≠ ([] : List Nat)) ∧
     (∀ d ∈ [Ready.RW], ∀ s : Nat, s &&& Wait.RW ≠ 0 → d &&& s ≠ 0)) ∧
    (normTimeout (some 0) = none ∧
     wait_conn (PQGenConn.yield 5 Wait.R (fun r => PQGenConn.done r)) (some 0) [[Ready.R]] =
       wait_conn (PQGenConn.yield 5 Wait.R (fun r => PQGenConn.done r)) none [[Ready.R]] ∧
     wait_conn_async (PQGenConn.yield 5 Wait.R (fun r => PQGenConn.done r)) (some 0) [Ready.RW] =
       wait_conn_async (PQGenConn.yield 5 Wait.R (fun r => PQGenConn.done r)) none [Ready.RW] ∧
     wait_conn (PQGenConn.yield 5 Wait.R (fun r => PQGenConn.done r)) (some 0) [[Ready.R]] ≠
       WaitOutcome.operationalTimeout ∧
     wait_conn_async (PQGenConn.yield 5 Wait.R (fun r => PQGenConn.done r)) (some 0) [Ready.RW] ≠
       WaitOutcome.operationalTimeout) :=
  ⟨⟨by decide, rwOracleBlocking⟩,
   c10_zero_timeout (PQGenConn.yield 5 Wait.R (fun r => PQGenConn.done r))
     (PQGenConn.yield 5 Wait.R (fun r => PQGenConn.done r))
     [[Ready.R]] [Ready.RW] (by decide) rwOracleBlocking⟩
